import Mathlib

/-! go-usdt: a shallow embedding of `provider.go`.

The Go package wraps the C library libusdt.  The library itself is not part of
the package source, so it is taken here as a parameter: an `Engine` over an
arbitrary foreign state `σ`.  Every Go function is embedded as a function on a
`World`, which pairs the foreign state with the log of everything the Go code
did across the boundary (calls of C functions and reads of C struct fields).

Conventions
* a C pointer is `Option Ptr` (`none` is `NULL` / Go `nil`);
* `error` is `Option String` (`none` is `nil`, `some m` an error with text `m`);
* no method of the package assigns to a field of a `Probe` after it has been
  built, so a `*Probe` is embedded as the `Probe` value it points to, and a
  possibly-nil `*Probe` as `Option Probe`;
* Go `int` and `uintptr` are 64 bits wide, C `int` is 32 bits wide.
-/

namespace Usdt

/-- A non-null foreign address. -/
abbrev Ptr := Nat

/-- Go `error`: `none` is `nil`. -/
abbrev GoError := Option String

/-- One slot of an `[]unsafe.Pointer`: `null` (the zero value left by `make`),
a word obtained from an integer through `uintptr`, or the address of a fresh
NUL-terminated copy of a Go string produced by `C.CString`. -/
inductive Slot where
  | null
  | word (n : Nat)
  | cstring (s : String)
  deriving DecidableEq, Repr

/-- Everything the Go code does across the cgo boundary: calls of libusdt
functions and reads of fields of libusdt structs. -/
inductive ForeignCall where
  | usdt_create_provider (name module : String)
  | usdt_provider_free (provider : Option Ptr)
  | usdt_provider_enable (provider : Option Ptr)
  | usdt_provider_add_probe (provider : Option Ptr) (probedef : Option Ptr)
  | usdt_create_probe (function name : String) (argc : Nat) (types : List (Option String))
  | usdt_is_enabled (probe : Option Ptr)
  | usdt_fire_probe (probe : Option Ptr) (argc : Nat) (argv : List Slot)
  | read_provider_enabled (provider : Ptr)
  | read_provider_error (provider : Ptr)
  | read_probedef_argc (probedef : Ptr)
  | read_probedef_probe (probedef : Ptr)
  deriving DecidableEq, Repr

/-- The foreign engine (libusdt), taken as a parameter.  Functions of the C API
may change the foreign state; the last four fields read struct members
(`usdt_provider_t.enabled`, `usdt_provider_t.error`, `usdt_probedef_t.argc`,
`usdt_probedef_t.probe`). -/
structure Engine (σ : Type) where
  usdt_create_provider : String → String → σ → Option Ptr × σ
  usdt_provider_free : Option Ptr → σ → σ
  usdt_provider_enable : Option Ptr → σ → Int × σ
  usdt_provider_add_probe : Option Ptr → Option Ptr → σ → Int × σ
  usdt_create_probe : String → String → Nat → List (Option String) → σ → Option Ptr × σ
  usdt_is_enabled : Option Ptr → σ → Int × σ
  usdt_fire_probe : Option Ptr → Nat → List Slot → σ → σ
  provider_enabled : Ptr → σ → Int
  provider_error : Ptr → σ → Option String
  probedef_argc : Ptr → σ → Nat
  probedef_probe : Ptr → σ → Option Ptr

/-- The foreign state together with the log of foreign calls and reads, oldest first. -/
structure World (σ : Type) where
  st : σ
  log : List ForeignCall

/-- Go struct `Probe`. -/
structure Probe where
  Function : String
  Name : String
  cProbeDef : Option Ptr
  deriving DecidableEq, Repr

/-- Go struct `Provider`. -/
structure Provider where
  Name : String
  Module : String
  Probes : List Probe
  cProvider : Option Ptr
  deriving DecidableEq, Repr

/-- `reflect.Kind`, in the order of the Go standard library. -/
inductive Kind where
  | Invalid | Bool | Int | Int8 | Int16 | Int32 | Int64
  | Uint | Uint8 | Uint16 | Uint32 | Uint64 | Uintptr
  | Float32 | Float64 | Complex64 | Complex128
  | Array | Chan | Func | Interface | Map | Pointer | Slice
  | String | Struct | UnsafePointer
  deriving DecidableEq, Repr

/-- A Go `interface{}` value as seen by the type switch of `Fire`: an `int`, a
`string`, or a value of any other dynamic type (`typeName` is what `%T`
prints, `<nil>` for the nil interface). -/
inductive GoValue where
  | int (v : Int)
  | string (s : String)
  | other (typeName : String)
  deriving DecidableEq, Repr

/-- `C.GoString`: the Go copy of a C string, empty for `NULL`. -/
def GoString (s : Option String) : String := s.getD ""

/-- `C.int(v)` for a Go `int`: keep the low 32 bits, read as signed. -/
def C_int (v : Int) : Int := (v + 2 ^ 31) % 2 ^ 32 - 2 ^ 31

/-- `uintptr(v)` for a signed integer: sign-extend, keep the low 64 bits. -/
def uintptr (v : Int) : Nat := (v % 2 ^ 64).toNat

/-- The text of the closed-provider error built in `Enable` and `error`. -/
def closedMessage (p : Provider) : String :=
  "DTrace [" ++ p.Name ++ ":" ++ p.Module ++ "]: provider closed"

/-- `NewProvider`. -/
def NewProvider {σ : Type} (E : Engine σ) (name module : String) (w : World σ) :
    (Option Provider × GoError) × World σ :=
  let r := E.usdt_create_provider name module w.st
  let w1 : World σ := ⟨r.2, w.log ++ [.usdt_create_provider name module]⟩
  match r.1 with
  | none => ((none, some ("usdt_create_provider (" ++ name ++ ":" ++ module ++ ")")), w1)
  | some cProvider =>
    ((some { Name := name, Module := module, Probes := [], cProvider := some cProvider }, none), w1)

/-- `(*Provider).Close`. -/
def Provider.Close {σ : Type} (E : Engine σ) (p : Provider) (w : World σ) :
    Provider × World σ :=
  match p.cProvider with
  | none => (p, w)
  | some h =>
    ({ p with cProvider := none },
      ⟨E.usdt_provider_free (some h) w.st, w.log ++ [.usdt_provider_free (some h)]⟩)

/-- `(*Provider).error`. -/
def Provider.error {σ : Type} (E : Engine σ) (p : Provider) (w : World σ) :
    GoError × World σ :=
  match p.cProvider with
  | none => (some (closedMessage p), w)
  | some h =>
    let message := GoString (E.provider_error h w.st)
    let w1 : World σ := ⟨w.st, w.log ++ [.read_provider_error h]⟩
    -- `len(message) == 0` holds exactly when the string is empty
    if message = "" then (none, w1)
    else (some ("DTrace [" ++ p.Name ++ ":" ++ p.Module ++ "]: " ++ message), w1)

/-- `(*Provider).Enable`. -/
def Provider.Enable {σ : Type} (E : Engine σ) (p : Provider) (w : World σ) :
    GoError × World σ :=
  match p.cProvider with
  | none => (some (closedMessage p), w)
  | some h =>
    let r := E.usdt_provider_enable (some h) w.st
    let w1 : World σ := ⟨r.2, w.log ++ [.usdt_provider_enable (some h)]⟩
    if r.1 = 0 then (none, w1) else Provider.error E p w1

/-- `(*Provider).AddProbe`.  The provider itself is returned as well, to make
visible what the method does to its fields. -/
def Provider.AddProbe {σ : Type} (E : Engine σ) (p : Provider) (probe : Option Probe)
    (w : World σ) : (Provider × GoError) × World σ :=
  match probe with
  | none => ((p, some "probe may not be nil"), w)
  | some q =>
    let r := E.usdt_provider_add_probe p.cProvider q.cProbeDef w.st
    let w1 : World σ := ⟨r.2, w.log ++ [.usdt_provider_add_probe p.cProvider q.cProbeDef]⟩
    if r.1 = 0 then ((p, none), w1)
    else
      let e := Provider.error E p w1
      ((p, e.1), e.2)

/-- `(*Provider).Enabled`. -/
def Provider.Enabled {σ : Type} (E : Engine σ) (p : Provider) (w : World σ) :
    Bool × World σ :=
  match p.cProvider with
  | none => (false, w)
  | some h =>
    (decide (E.provider_enabled h w.st ≠ 0), ⟨w.st, w.log ++ [.read_provider_enabled h]⟩)

/-- The loop of `NewProbe` over `argumentTypes`, started at index `i` on the
slice `cArgumentTypes`; `error` is the early return of the `default` case.
The slice has one element more than there are kinds, so the index written is
always in range. -/
def encodeKinds : List Kind → Nat → List (Option String) → Except String (List (Option String))
  | [], _, cArgumentTypes => .ok cArgumentTypes
  | kind :: rest, i, cArgumentTypes =>
    match kind with
    | .Int => encodeKinds rest (i + 1) (cArgumentTypes.set i (some "int"))
    | .String => encodeKinds rest (i + 1) (cArgumentTypes.set i (some "char *"))
    | _ => .error "Probe arguments may only be of kind Int or String"

/-- `NewProbe`. -/
def NewProbe {σ : Type} (E : Engine σ) (function name : String) (argumentTypes : List Kind)
    (w : World σ) : (Option Probe × GoError) × World σ :=
  match encodeKinds argumentTypes 0 (List.replicate (argumentTypes.length + 1) none) with
  | .error e => ((none, some e), w)
  | .ok cArgumentTypes =>
    let r := E.usdt_create_probe function name (cArgumentTypes.length - 1) cArgumentTypes w.st
    let w1 : World σ :=
      ⟨r.2, w.log ++ [.usdt_create_probe function name (cArgumentTypes.length - 1) cArgumentTypes]⟩
    match r.1 with
    | none => ((none, some ("usdt_create_probe (" ++ function ++ ":" ++ name ++ ")")), w1)
    | some cProbeDef =>
      ((some { Function := function, Name := name, cProbeDef := some cProbeDef }, none), w1)

/-- `(*Probe).Enabled`. -/
def Probe.Enabled {σ : Type} (E : Engine σ) (p : Probe) (w : World σ) : Bool × World σ :=
  match p.cProbeDef with
  | none => (false, w)
  | some d =>
    let cProbe := E.probedef_probe d w.st
    let r := E.usdt_is_enabled cProbe w.st
    (decide (r.1 = 1), ⟨r.2, w.log ++ [.read_probedef_probe d, .usdt_is_enabled cProbe]⟩)

/-- The loop of `Fire` over `args`, started at index `i` on the slice
`cProbeArgs`; `error` is the early return of the `default` case.  The loop is
reached only when the slice has one element more than there are arguments, so
the index written is always in range.  `C.CString` and the deferred `C.free`
manage the transient copy of a string; the copy is embedded by its content. -/
def marshalArgs : List GoValue → Nat → List Slot → Except String (List Slot)
  | [], _, cProbeArgs => .ok cProbeArgs
  | arg :: rest, i, cProbeArgs =>
    match arg with
    | .int argT => marshalArgs rest (i + 1) (cProbeArgs.set i (Slot.word (uintptr (C_int argT))))
    | .string argT => marshalArgs rest (i + 1) (cProbeArgs.set i (Slot.cstring argT))
    | .other typeName => .error ("Arguments must be of kind Int or String, got " ++ typeName)

/-- The text of the error `Fire` returns when the argument count is wrong. -/
def arityMessage (p : Probe) (expectedArgC got : Nat) : String :=
  "DTrace [" ++ p.Function ++ ":" ++ p.Name ++ "]: Expected " ++ toString expectedArgC ++
    " arguments, got " ++ toString got

/-- `(*Probe).Fire`.  The result is `none` when the call panics: `Fire` reads
`p.cProbeDef.argc` without a nil check.  After the arity check `expectedArgC`
equals `len(args)`, so `expectedArgC+1` does not wrap. -/
def Probe.Fire {σ : Type} (E : Engine σ) (p : Probe) (args : List GoValue) (w : World σ) :
    Option (GoError × World σ) :=
  match p.cProbeDef with
  | none => none
  | some d =>
    let expectedArgC := E.probedef_argc d w.st
    let w1 : World σ := ⟨w.st, w.log ++ [.read_probedef_argc d]⟩
    if args.length ≠ expectedArgC then
      some (some (arityMessage p expectedArgC args.length), w1)
    else
      match marshalArgs args 0 (List.replicate (expectedArgC + 1) Slot.null) with
      | .error e => some (some e, w1)
      | .ok cProbeArgs =>
        let cProbe := E.probedef_probe d w1.st
        some (none,
          ⟨E.usdt_fire_probe cProbe (cProbeArgs.length - 1) cProbeArgs w1.st,
            w1.log ++ [.read_probedef_probe d,
              .usdt_fire_probe cProbe (cProbeArgs.length - 1) cProbeArgs]⟩)

/-! ## Sequences of calls on one provider -/

/-- A call of one of the methods of a provider. -/
inductive Op where
  | Close
  | Enable
  | AddProbe (probe : Option Probe)
  | Enabled
  deriving DecidableEq, Repr

/-- Perform one method call; the value the call returns is dropped. -/
def step {σ : Type} (E : Engine σ) (op : Op) (s : Provider × World σ) : Provider × World σ :=
  match op with
  | .Close => Provider.Close E s.1 s.2
  | .Enable => (s.1, (Provider.Enable E s.1 s.2).2)
  | .AddProbe probe => ((Provider.AddProbe E s.1 probe s.2).1.1, (Provider.AddProbe E s.1 probe s.2).2)
  | .Enabled => (s.1, (Provider.Enabled E s.1 s.2).2)

/-- Perform a sequence of method calls, first to last. -/
def run {σ : Type} (E : Engine σ) (ops : List Op) (s : Provider × World σ) : Provider × World σ :=
  ops.foldl (fun s op => step E op s) s

/-! ## Observations on the log -/

/-- Is the entry a call of `usdt_provider_free`? -/
def isFree : ForeignCall → Bool
  | .usdt_provider_free _ => true
  | _ => false

/-- Is the entry a call of `usdt_fire_probe`? -/
def isFire : ForeignCall → Bool
  | .usdt_fire_probe _ _ _ => true
  | _ => false

/-- Number of calls of `usdt_provider_free` in a log. -/
def frees (log : List ForeignCall) : Nat := log.countP isFree

/-- Number of calls of `usdt_fire_probe` in a log. -/
def fires (log : List ForeignCall) : Nat := log.countP isFire

/-- Is the dynamic type of the value one of the two the type switch of `Fire`
accepts, `int` or `string`? -/
def supported : GoValue → Bool
  | .int _ => true
  | .string _ => true
  | .other _ => false

/-- The slot the loop of `Fire` stores for an argument; an argument of another
type stores nothing and leaves the `null` of `make`. -/
def slotOf : GoValue → Slot
  | .int argT => Slot.word (uintptr (C_int argT))
  | .string argT => Slot.cstring argT
  | .other _ => Slot.null

/-- Is the kind one of the two the switch of `NewProbe` accepts? -/
def kindSupported : Kind → Bool
  | .Int => true
  | .String => true
  | _ => false

/-- The C type name the loop of `NewProbe` stores for a kind; another kind
stores nothing and leaves the `nil` of `make`. -/
def typeNameOf : Kind → Option String
  | .Int => some "int"
  | .String => some "char *"
  | _ => none

/-! ## A stub engine, for running the code on concrete inputs -/

/-- State of the stub engine: what its functions and struct fields answer. -/
structure Stub where
  status : Int
  enabled : Int
  error : Option String
  argc : Nat
  isEnabled : Int
  deriving DecidableEq, Repr

/-- A stub engine: allocation always succeeds, `usdt_create_probe` records the
arity it is given, everything else answers from the `Stub` state. -/
def stubEngine : Engine Stub where
  usdt_create_provider := fun _ _ s => (some 1, s)
  usdt_provider_free := fun _ s => s
  usdt_provider_enable := fun _ s => (s.status, s)
  usdt_provider_add_probe := fun _ _ s => (s.status, s)
  usdt_create_probe := fun _ _ argc _ s => (some 2, { s with argc := argc })
  usdt_is_enabled := fun _ s => (s.isEnabled, s)
  usdt_fire_probe := fun _ _ _ s => s
  provider_enabled := fun _ s => s.enabled
  provider_error := fun _ s => s.error
  probedef_argc := fun _ s => s.argc
  probedef_probe := fun _ _ => some 3

/-- A stub state in which every foreign call succeeds and no error is recorded. -/
def stubOk : Stub := { status := 0, enabled := 0, error := none, argc := 0, isEnabled := 1 }

/-- A stub state in which enable and attach fail, with no error text recorded. -/
def stubFail : Stub := { status := -1, enabled := 0, error := none, argc := 0, isEnabled := 0 }

/-! ## Lemmas on single calls -/

theorem Close_of_closed {σ : Type} (E : Engine σ) (p : Provider) (w : World σ)
    (h : p.cProvider = none) : Provider.Close E p w = (p, w) := by
  simp [Provider.Close, h]

theorem Close_cProvider {σ : Type} (E : Engine σ) (p : Provider) (w : World σ) :
    (Provider.Close E p w).1.cProvider = none := by
  unfold Provider.Close
  cases h : p.cProvider <;> simp [h]

theorem Close_frees_of_open {σ : Type} (E : Engine σ) (p : Provider) (w : World σ)
    (h : p.cProvider ≠ none) : frees (Provider.Close E p w).2.log = frees w.log + 1 := by
  unfold Provider.Close
  cases hp : p.cProvider with
  | none => exact absurd hp h
  | some c => simp [frees, List.countP_append, isFree]

theorem error_frees {σ : Type} (E : Engine σ) (p : Provider) (w : World σ) :
    frees (Provider.error E p w).2.log = frees w.log := by
  unfold Provider.error
  cases p.cProvider with
  | none => rfl
  | some c =>
    dsimp only
    split <;> simp [frees, List.countP_append, isFree]

theorem Enable_frees {σ : Type} (E : Engine σ) (p : Provider) (w : World σ) :
    frees (Provider.Enable E p w).2.log = frees w.log := by
  unfold Provider.Enable
  cases p.cProvider with
  | none => rfl
  | some c =>
    dsimp only
    split
    · simp [frees, List.countP_append, isFree]
    · rw [error_frees]; simp [frees, List.countP_append, isFree]

theorem AddProbe_frees {σ : Type} (E : Engine σ) (p : Provider) (probe : Option Probe)
    (w : World σ) : frees (Provider.AddProbe E p probe w).2.log = frees w.log := by
  unfold Provider.AddProbe
  cases probe with
  | none => rfl
  | some q =>
    dsimp only
    split
    · simp [frees, List.countP_append, isFree]
    · rw [error_frees]; simp [frees, List.countP_append, isFree]

theorem AddProbe_provider {σ : Type} (E : Engine σ) (p : Provider) (probe : Option Probe)
    (w : World σ) : (Provider.AddProbe E p probe w).1.1 = p := by
  unfold Provider.AddProbe
  cases probe with
  | none => rfl
  | some q =>
    dsimp only
    split <;> rfl

theorem Enabled_frees {σ : Type} (E : Engine σ) (p : Provider) (w : World σ) :
    frees (Provider.Enabled E p w).2.log = frees w.log := by
  unfold Provider.Enabled
  cases p.cProvider with
  | none => rfl
  | some c => simp [frees, List.countP_append, isFree]

/-- A call other than `Close` leaves the handle as it is and frees nothing. -/
theorem step_of_ne_Close {σ : Type} (E : Engine σ) (op : Op) (s : Provider × World σ)
    (h : op ≠ Op.Close) :
    (step E op s).1.cProvider = s.1.cProvider ∧ frees (step E op s).2.log = frees s.2.log := by
  cases op with
  | Close => exact absurd rfl h
  | Enable => exact ⟨rfl, Enable_frees E s.1 s.2⟩
  | AddProbe probe =>
    refine ⟨?_, AddProbe_frees E s.1 probe s.2⟩
    show (Provider.AddProbe E s.1 probe s.2).1.1.cProvider = s.1.cProvider
    rw [AddProbe_provider]
  | Enabled => exact ⟨rfl, Enabled_frees E s.1 s.2⟩

/-- On a closed provider no call frees anything and the handle stays absent. -/
theorem step_of_closed {σ : Type} (E : Engine σ) (op : Op) (s : Provider × World σ)
    (h : s.1.cProvider = none) :
    (step E op s).1.cProvider = none ∧ frees (step E op s).2.log = frees s.2.log := by
  by_cases hop : op = Op.Close
  · subst hop
    show (Provider.Close E s.1 s.2).1.cProvider = none ∧
      frees (Provider.Close E s.1 s.2).2.log = frees s.2.log
    rw [Close_of_closed E s.1 s.2 h]
    exact ⟨h, rfl⟩
  · have := step_of_ne_Close E op s hop
    exact ⟨this.1.trans h, this.2⟩

theorem run_of_closed {σ : Type} (E : Engine σ) (ops : List Op) (s : Provider × World σ)
    (h : s.1.cProvider = none) :
    (run E ops s).1.cProvider = none ∧ frees (run E ops s).2.log = frees s.2.log := by
  induction ops generalizing s with
  | nil => exact ⟨h, rfl⟩
  | cons op ops ih =>
    have h1 := step_of_closed E op s h
    have h2 := ih (step E op s) h1.1
    exact ⟨h2.1, h2.2.trans h1.2⟩

theorem run_of_open {σ : Type} (E : Engine σ) (ops : List Op) (s : Provider × World σ)
    (h : s.1.cProvider ≠ none) :
    (Op.Close ∈ ops → (run E ops s).1.cProvider = none ∧
        frees (run E ops s).2.log = frees s.2.log + 1) ∧
    (Op.Close ∉ ops → (run E ops s).1.cProvider = s.1.cProvider ∧
        frees (run E ops s).2.log = frees s.2.log) := by
  induction ops generalizing s with
  | nil => exact ⟨fun hm => absurd hm (List.not_mem_nil _), fun _ => ⟨rfl, rfl⟩⟩
  | cons op ops ih =>
    by_cases hop : op = Op.Close
    · subst hop
      have hc : (step E Op.Close s).1.cProvider = none := Close_cProvider E s.1 s.2
      have hf : frees (step E Op.Close s).2.log = frees s.2.log + 1 :=
        Close_frees_of_open E s.1 s.2 h
      have h2 := run_of_closed E ops (step E Op.Close s) hc
      refine ⟨fun _ => ⟨h2.1, h2.2.trans hf⟩, fun hn => absurd (List.mem_cons_self _ _) hn⟩
    · have h1 := step_of_ne_Close E op s hop
      have h2 := ih (step E op s) (by rw [h1.1]; exact h)
      constructor
      · intro hm
        have hm2 : Op.Close ∈ ops := by
          rcases List.mem_cons.mp hm with e | e
          · exact absurd e.symm hop
          · exact e
        have := h2.1 hm2
        exact ⟨this.1, by rw [← h1.2]; exact this.2⟩
      · intro hn
        have hn2 : Op.Close ∉ ops := fun e => hn (List.mem_cons_of_mem _ e)
        have := h2.2 hn2
        exact ⟨this.1.trans h1.1, this.2.trans h1.2⟩

/-! ## C1 -/

/-- C1: `Provider.Close` is idempotent and releases the foreign provider at most
once.  For every provider, every world and every sequence `ops` of method
calls on the provider: `usdt_provider_free` is called at most once during the
sequence; exactly once when the sequence contains a `Close` and the provider
was open; once the sequence contains a `Close` the handle is absent; and one
more `Close` then changes nothing at all, neither the provider nor the foreign
state nor the log. -/
theorem Close_idempotent {σ : Type} (E : Engine σ) (p : Provider) (w : World σ) (ops : List Op) :
    frees (run E ops (p, w)).2.log ≤ frees w.log + 1 ∧
    (Op.Close ∈ ops → p.cProvider ≠ none →
      frees (run E ops (p, w)).2.log = frees w.log + 1) ∧
    (Op.Close ∈ ops → (run E ops (p, w)).1.cProvider = none) ∧
    (Op.Close ∈ ops →
      Provider.Close E (run E ops (p, w)).1 (run E ops (p, w)).2 = run E ops (p, w)) := by
  have hnone : Op.Close ∈ ops → (run E ops (p, w)).1.cProvider = none := by
    intro hm
    by_cases h : p.cProvider = none
    · exact (run_of_closed E ops (p, w) h).1
    · exact ((run_of_open E ops (p, w) h).1 hm).1
  refine ⟨?_, ?_, hnone, ?_⟩
  · by_cases h : p.cProvider = none
    · rw [(run_of_closed E ops (p, w) h).2]; exact Nat.le_succ _
    · by_cases hm : Op.Close ∈ ops
      · rw [((run_of_open E ops (p, w) h).1 hm).2]
      · rw [((run_of_open E ops (p, w) h).2 hm).2]; exact Nat.le_succ _
  · intro hm h
    exact ((run_of_open E ops (p, w) h).1 hm).2
  · intro hm
    exact Close_of_closed E _ _ (hnone hm)

/-- C1 on a concrete run: enable, close, attach, close, query. -/
theorem Close_idempotent_witness :
    frees (run stubEngine [.Enable, .Close, .AddProbe (some ⟨"f", "n", some 2⟩), .Close, .Enabled]
      (⟨"a", "b", [], some 1⟩, ⟨stubOk, []⟩)).2.log = frees [] + 1 ∧
    (run stubEngine [.Enable, .Close, .AddProbe (some ⟨"f", "n", some 2⟩), .Close, .Enabled]
      (⟨"a", "b", [], some 1⟩, ⟨stubOk, []⟩)).1.cProvider = none :=
  ⟨(Close_idempotent stubEngine ⟨"a", "b", [], some 1⟩ ⟨stubOk, []⟩
      [.Enable, .Close, .AddProbe (some ⟨"f", "n", some 2⟩), .Close, .Enabled]).2.1
      (by decide) (by decide),
   (Close_idempotent stubEngine ⟨"a", "b", [], some 1⟩ ⟨stubOk, []⟩
      [.Enable, .Close, .AddProbe (some ⟨"f", "n", some 2⟩), .Close, .Enabled]).2.2.1
      (by decide)⟩

/-! ## Lemmas on the loops of `Fire` and `NewProbe` -/

theorem marshalArgs_ok (args : List GoValue) (pre suf : List Slot)
    (hs : ∀ a ∈ args, supported a = true) (hl : args.length ≤ suf.length) :
    marshalArgs args pre.length (pre ++ suf) =
      .ok (pre ++ args.map slotOf ++ suf.drop args.length) := by
  induction args generalizing pre suf with
  | nil => simp [marshalArgs]
  | cons a rest ih =>
    cases suf with
    | nil => simp at hl
    | cons x suf =>
      have hrest : ∀ b ∈ rest, supported b = true := fun b hb => hs b (List.mem_cons_of_mem _ hb)
      have hl2 : rest.length ≤ suf.length := by simpa using hl
      have hset : ∀ s : Slot, (pre ++ x :: suf).set pre.length s = (pre ++ [s]) ++ suf := by
        intro s
        rw [List.set_append_right _ _ (Nat.le_refl _)]
        simp
      have hlen : ∀ s : Slot, pre.length + 1 = (pre ++ [s]).length := by
        intro s; simp
      cases a with
      | int v =>
        simp only [marshalArgs]
        rw [hset, hlen (Slot.word (uintptr (C_int v))), ih _ _ hrest hl2]
        simp [slotOf]
      | string v =>
        simp only [marshalArgs]
        rw [hset, hlen (Slot.cstring v), ih _ _ hrest hl2]
        simp [slotOf]
      | other t =>
        have := hs (.other t) (List.mem_cons_self _ _)
        simp [supported] at this

theorem marshalArgs_error (args : List GoValue) (i : Nat) (arr : List Slot)
    (hs : ∃ a ∈ args, supported a = false) :
    ∃ t, GoValue.other t ∈ args ∧
      marshalArgs args i arr = .error ("Arguments must be of kind Int or String, got " ++ t) := by
  induction args generalizing i arr with
  | nil => obtain ⟨a, ha, _⟩ := hs; exact absurd ha (List.not_mem_nil _)
  | cons a rest ih =>
    cases a with
    | other t => exact ⟨t, List.mem_cons_self _ _, by simp [marshalArgs]⟩
    | int v =>
      have hs2 : ∃ a ∈ rest, supported a = false := by
        obtain ⟨a, ha, hf⟩ := hs
        rcases List.mem_cons.mp ha with e | e
        · subst e; simp [supported] at hf
        · exact ⟨a, e, hf⟩
      obtain ⟨t, ht, he⟩ := ih (i + 1) (arr.set i (Slot.word (uintptr (C_int v)))) hs2
      exact ⟨t, List.mem_cons_of_mem _ ht, by simp only [marshalArgs]; exact he⟩
    | string v =>
      have hs2 : ∃ a ∈ rest, supported a = false := by
        obtain ⟨a, ha, hf⟩ := hs
        rcases List.mem_cons.mp ha with e | e
        · subst e; simp [supported] at hf
        · exact ⟨a, e, hf⟩
      obtain ⟨t, ht, he⟩ := ih (i + 1) (arr.set i (Slot.cstring v)) hs2
      exact ⟨t, List.mem_cons_of_mem _ ht, by simp only [marshalArgs]; exact he⟩

/-- The loop of `Fire` on the slice `make` returns, when every argument is supported. -/
theorem marshalArgs_make (args : List GoValue) (hs : ∀ a ∈ args, supported a = true) :
    marshalArgs args 0 (List.replicate (args.length + 1) Slot.null) =
      .ok (args.map slotOf ++ [Slot.null]) := by
  have h := marshalArgs_ok args [] (List.replicate (args.length + 1) Slot.null) hs (by simp)
  simpa using h

/-- `Fire` with a wrong number of arguments. -/
theorem Fire_of_arity_ne {σ : Type} (E : Engine σ) (p : Probe) (d : Ptr) (args : List GoValue)
    (w : World σ) (hd : p.cProbeDef = some d) (hlen : args.length ≠ E.probedef_argc d w.st) :
    Probe.Fire E p args w =
      some (some (arityMessage p (E.probedef_argc d w.st) args.length),
        ⟨w.st, w.log ++ [.read_probedef_argc d]⟩) := by
  simp [Probe.Fire, hd, hlen]

/-- `Fire` with the right number of arguments, one of them of an unsupported type. -/
theorem Fire_of_unsupported {σ : Type} (E : Engine σ) (p : Probe) (d : Ptr)
    (args : List GoValue) (w : World σ) (hd : p.cProbeDef = some d)
    (hlen : args.length = E.probedef_argc d w.st) (hs : ∃ a ∈ args, supported a = false) :
    ∃ t, GoValue.other t ∈ args ∧
      Probe.Fire E p args w =
        some (some ("Arguments must be of kind Int or String, got " ++ t),
          ⟨w.st, w.log ++ [.read_probedef_argc d]⟩) := by
  obtain ⟨t, ht, he⟩ :=
    marshalArgs_error args 0 (List.replicate (E.probedef_argc d w.st + 1) Slot.null) hs
  refine ⟨t, ht, ?_⟩
  simp [Probe.Fire, hd, hlen, he]

/-- `Fire` with the right number of arguments, all of a supported type. -/
theorem Fire_of_ok {σ : Type} (E : Engine σ) (p : Probe) (d : Ptr) (args : List GoValue)
    (w : World σ) (hd : p.cProbeDef = some d) (hlen : args.length = E.probedef_argc d w.st)
    (hs : ∀ a ∈ args, supported a = true) :
    Probe.Fire E p args w =
      some (none,
        ⟨E.usdt_fire_probe (E.probedef_probe d w.st) args.length
            (args.map slotOf ++ [Slot.null]) w.st,
          w.log ++ [.read_probedef_argc d, .read_probedef_probe d,
            .usdt_fire_probe (E.probedef_probe d w.st) args.length
              (args.map slotOf ++ [Slot.null])]⟩) := by
  have hm := marshalArgs_make args hs
  rw [hlen] at hm
  simp [Probe.Fire, hd, hlen, hm]

theorem exists_unsupported_iff (args : List GoValue) :
    (∃ a ∈ args, supported a = false) ↔ ∃ t, GoValue.other t ∈ args := by
  constructor
  · rintro ⟨a, ha, hf⟩
    cases a with
    | int v => simp [supported] at hf
    | string v => simp [supported] at hf
    | other t => exact ⟨t, ha⟩
  · rintro ⟨t, ht⟩
    exact ⟨.other t, ht, rfl⟩

theorem all_supported_iff (args : List GoValue) :
    (∀ a ∈ args, supported a = true) ↔ ∀ t, GoValue.other t ∉ args := by
  constructor
  · intro h t ht
    have := h _ ht
    simp [supported] at this
  · intro h a ha
    cases a with
    | int v => rfl
    | string v => rfl
    | other t => exact absurd ha (h t)

theorem fires_append_read (log : List ForeignCall) (d : Ptr) :
    fires (log ++ [.read_probedef_argc d]) = fires log := by
  simp [fires, List.countP_append, isFire]

theorem fires_append_fire (log : List ForeignCall) (d : Ptr) (cProbe : Option Ptr) (argc : Nat)
    (argv : List Slot) :
    fires (log ++ [.read_probedef_argc d, .read_probedef_probe d,
      .usdt_fire_probe cProbe argc argv]) = fires log + 1 := by
  simp [fires, List.countP_append, List.countP_cons, isFire]

/-! ## C2 -/

/-- C2, the code at a closed provider: `AddProbe` has no closed check.  For every
closed provider and every probe, `AddProbe` calls `usdt_provider_add_probe`
with a null provider and returns nil when that call answers 0 (the closed
error only when it answers something else); `Enable` returns the closed error
and `Enabled` returns false, both without any foreign call or read. -/
theorem AddProbe_on_closed_calls_engine {σ : Type} (E : Engine σ) (p : Provider) (q : Probe)
    (w : World σ) (h : p.cProvider = none) :
    (Provider.AddProbe E p (some q) w).2.log =
        w.log ++ [.usdt_provider_add_probe none q.cProbeDef] ∧
    ((E.usdt_provider_add_probe none q.cProbeDef w.st).1 = 0 →
      (Provider.AddProbe E p (some q) w).1.2 = none) ∧
    ((E.usdt_provider_add_probe none q.cProbeDef w.st).1 ≠ 0 →
      (Provider.AddProbe E p (some q) w).1.2 =
        some ("DTrace [" ++ p.Name ++ ":" ++ p.Module ++ "]: provider closed")) ∧
    Provider.Enable E p w =
      (some ("DTrace [" ++ p.Name ++ ":" ++ p.Module ++ "]: provider closed"), w) ∧
    Provider.Enabled E p w = (false, w) := by
  refine ⟨?_, ?_, ?_, ?_, ?_⟩
  · unfold Provider.AddProbe
    dsimp only
    split
    · simp [h]
    · simp [Provider.error, h]
  · intro h0
    simp [Provider.AddProbe, h, h0]
  · intro h0
    simp [Provider.AddProbe, h, h0, Provider.error, closedMessage]
  · simp [Provider.Enable, h, closedMessage]
  · simp [Provider.Enabled, h]

/-- C2 at a concrete closed provider: the attach call reaches the engine and
`AddProbe` returns nil. -/
theorem AddProbe_on_closed_calls_engine_witness :
    (Provider.AddProbe stubEngine ⟨"myapp", "core", [], none⟩
        (some ⟨"doWork", "start", some 2⟩) ⟨stubOk, []⟩).2.log =
      [] ++ [.usdt_provider_add_probe none (some 2)] ∧
    (Provider.AddProbe stubEngine ⟨"myapp", "core", [], none⟩
        (some ⟨"doWork", "start", some 2⟩) ⟨stubOk, []⟩).1.2 = none :=
  ⟨(AddProbe_on_closed_calls_engine stubEngine ⟨"myapp", "core", [], none⟩
      ⟨"doWork", "start", some 2⟩ ⟨stubOk, []⟩ rfl).1,
   (AddProbe_on_closed_calls_engine stubEngine ⟨"myapp", "core", [], none⟩
      ⟨"doWork", "start", some 2⟩ ⟨stubOk, []⟩ rfl).2.1 (by decide)⟩

/-! ## C3 -/

/-- C3: for every probe whose foreign definition records arity `N` and every
argument list whose length is not `N`, `Fire` returns the arity error, whose
text reports `N` as expected and the length of the list as got; the foreign
state is untouched and `usdt_fire_probe` is not called. -/
theorem Fire_arity_mismatch {σ : Type} (E : Engine σ) (p : Probe) (d : Ptr) (N : Nat)
    (args : List GoValue) (w : World σ) (hd : p.cProbeDef = some d)
    (hN : E.probedef_argc d w.st = N) (hlen : args.length ≠ N) :
    ∃ w', Probe.Fire E p args w =
        some (some ("DTrace [" ++ p.Function ++ ":" ++ p.Name ++ "]: Expected " ++ toString N ++
          " arguments, got " ++ toString args.length), w') ∧
      w'.st = w.st ∧ fires w'.log = fires w.log := by
  subst hN
  refine ⟨⟨w.st, w.log ++ [.read_probedef_argc d]⟩, ?_, rfl, fires_append_read _ _⟩
  rw [Fire_of_arity_ne E p d args w hd hlen]
  rfl

/-- C3 at a probe of arity 2 fired with one argument. -/
theorem Fire_arity_mismatch_witness :
    ∃ w', Probe.Fire stubEngine ⟨"doWork", "start", some 2⟩ [.int 42]
        ⟨{ stubOk with argc := 2 }, []⟩ =
        some (some ("DTrace [" ++ "doWork" ++ ":" ++ "start" ++ "]: Expected " ++ toString 2 ++
          " arguments, got " ++ toString [GoValue.int 42].length), w') ∧
      w'.st = { stubOk with argc := 2 } ∧ fires w'.log = fires [] :=
  Fire_arity_mismatch stubEngine ⟨"doWork", "start", some 2⟩ 2 2 [.int 42]
    ⟨{ stubOk with argc := 2 }, []⟩ rfl rfl (by decide)

/-! ## C4 -/

/-- C4: `Fire` is all-or-nothing.  For every probe with a foreign definition and
every argument list, `Fire` returns; it returns an error exactly when the
argument count is wrong or some argument is neither an `int` nor a `string`;
when it returns an error, `usdt_fire_probe` is not called and the foreign
state is untouched; when it returns nil, `usdt_fire_probe` is called exactly
once, with `argc` equal to the arity the definition records. -/
theorem Fire_all_or_nothing {σ : Type} (E : Engine σ) (p : Probe) (d : Ptr)
    (args : List GoValue) (w : World σ) (hd : p.cProbeDef = some d) :
    ∃ e w', Probe.Fire E p args w = some (e, w') ∧
      (e ≠ none ↔ (args.length ≠ E.probedef_argc d w.st ∨ ∃ t, GoValue.other t ∈ args)) ∧
      (e ≠ none → fires w'.log = fires w.log ∧ w'.st = w.st) ∧
      (e = none → ∃ cProbe argv,
        w'.log = w.log ++ [.read_probedef_argc d, .read_probedef_probe d,
          .usdt_fire_probe cProbe (E.probedef_argc d w.st) argv] ∧
        fires w'.log = fires w.log + 1) := by
  by_cases hlen : args.length = E.probedef_argc d w.st
  · by_cases hs : ∀ a ∈ args, supported a = true
    · refine ⟨none, _, Fire_of_ok E p d args w hd hlen hs, ?_, ?_, ?_⟩
      · have hno := (all_supported_iff args).mp hs
        constructor
        · intro h; exact absurd rfl h
        · rintro (h | ⟨t, ht⟩)
          · exact absurd hlen h
          · exact absurd ht (hno t)
      · intro h; exact absurd rfl h
      · intro _
        refine ⟨E.probedef_probe d w.st, args.map slotOf ++ [Slot.null], ?_, ?_⟩
        · rw [hlen]
        · exact fires_append_fire _ _ _ _ _
    · have hs2 : ∃ a ∈ args, supported a = false := by
        by_contra hc
        apply hs
        intro a ha
        cases hsa : supported a with
        | true => rfl
        | false => exact absurd ⟨a, ha, hsa⟩ hc
      obtain ⟨t, ht, hf⟩ := Fire_of_unsupported E p d args w hd hlen hs2
      refine ⟨_, _, hf, ?_, ?_, ?_⟩
      · constructor
        · intro _; exact Or.inr ⟨t, ht⟩
        · intro _; simp
      · intro _; exact ⟨fires_append_read _ _, rfl⟩
      · intro h; simp at h
  · refine ⟨_, _, Fire_of_arity_ne E p d args w hd hlen, ?_, ?_, ?_⟩
    · constructor
      · intro _; exact Or.inl hlen
      · intro _; simp
    · intro _; exact ⟨fires_append_read _ _, rfl⟩
    · intro h; simp at h

/-- C4 at a probe of arity 2 fired with an `int` and a `string`. -/
theorem Fire_all_or_nothing_witness :
    ∃ e w', Probe.Fire stubEngine ⟨"doWork", "start", some 2⟩ [.int 42, .string "hello"]
        ⟨{ stubOk with argc := 2 }, []⟩ = some (e, w') ∧
      (e ≠ none ↔ ([GoValue.int 42, GoValue.string "hello"].length ≠ 2 ∨
        ∃ t, GoValue.other t ∈ [GoValue.int 42, GoValue.string "hello"])) ∧
      (e ≠ none → fires w'.log = fires [] ∧ w'.st = { stubOk with argc := 2 }) ∧
      (e = none → ∃ cProbe argv,
        w'.log = [] ++ [.read_probedef_argc 2, .read_probedef_probe 2,
          .usdt_fire_probe cProbe 2 argv] ∧
        fires w'.log = fires [] + 1) :=
  Fire_all_or_nothing stubEngine ⟨"doWork", "start", some 2⟩ 2 [.int 42, .string "hello"]
    ⟨{ stubOk with argc := 2 }, []⟩ rfl

/-! ## C5 -/

theorem NewProbe_def_present {σ : Type} (E : Engine σ) (function name : String)
    (kinds : List Kind) (w : World σ) (p : Probe)
    (h : (NewProbe E function name kinds w).1.1 = some p) : ∃ d, p.cProbeDef = some d := by
  unfold NewProbe at h
  split at h
  · simp at h
  · dsimp only at h
    split at h
    · simp at h
    · rename_i c _
      simp at h
      exact ⟨c, by rw [← h]⟩

/-- C5, as the code has it: `Fire` checks each argument against the set
`int`, `string` only, never against the kind declared at its position.  For
every probe `NewProbe` built with the kinds `[Int, String]`, in a world where
its definition records arity 2, and every list of two arguments: if some
argument is neither an `int` nor a `string`, `Fire` returns the
unsupported-kind error and `usdt_fire_probe` is not called; otherwise, the
swapped order included, `Fire` returns nil and `usdt_fire_probe` is called
once. -/
theorem Fire_checks_supported_only {σ : Type} (E : Engine σ) (function name : String)
    (w0 : World σ) (p : Probe)
    (hnew : (NewProbe E function name [Kind.Int, Kind.String] w0).1.1 = some p)
    (w : World σ) (hargc : ∀ d, p.cProbeDef = some d → E.probedef_argc d w.st = 2)
    (args : List GoValue) (hlen : args.length = 2) :
    ((∃ t, GoValue.other t ∈ args) →
      ∃ t w', GoValue.other t ∈ args ∧
        Probe.Fire E p args w =
          some (some ("Arguments must be of kind Int or String, got " ++ t), w') ∧
        fires w'.log = fires w.log) ∧
    ((∀ t, GoValue.other t ∉ args) →
      ∃ w', Probe.Fire E p args w = some (none, w') ∧ fires w'.log = fires w.log + 1) := by
  obtain ⟨d, hd⟩ := NewProbe_def_present E function name _ w0 p hnew
  have hl : args.length = E.probedef_argc d w.st := by rw [hargc d hd]; exact hlen
  constructor
  · intro hex
    obtain ⟨t, ht, hf⟩ :=
      Fire_of_unsupported E p d args w hd hl ((exists_unsupported_iff args).mpr hex)
    exact ⟨t, _, ht, hf, fires_append_read _ _⟩
  · intro hall
    exact ⟨_, Fire_of_ok E p d args w hd hl ((all_supported_iff args).mpr hall),
      fires_append_fire _ _ _ _ _⟩

/-- C5 on the stub engine: a probe declared `[Int, String]`, fired with a
`string` and an `int`. -/
theorem Fire_checks_supported_only_witness :
    ∃ w', Probe.Fire stubEngine ⟨"doWork", "start", some 2⟩ [.string "hello", .int 42]
        ⟨{ stubOk with argc := 2 }, []⟩ = some (none, w') ∧
      fires w'.log = fires [] + 1 :=
  (Fire_checks_supported_only stubEngine "doWork" "start" ⟨stubOk, []⟩
    ⟨"doWork", "start", some 2⟩ rfl ⟨{ stubOk with argc := 2 }, []⟩ (fun _ _ => rfl)
    [.string "hello", .int 42] rfl).2 (fun t ht => by simp at ht)

/-- C5 fails as stated: a probe built with the kinds `[Int, String]` and fired
as `Fire("hello", 42)` returns nil, and `usdt_fire_probe` is called with the
two arguments in the order given. -/
theorem Fire_swapped_kinds_fires :
    (NewProbe stubEngine "doWork" "start" [Kind.Int, Kind.String] ⟨stubOk, []⟩).1.1 =
      some ⟨"doWork", "start", some 2⟩ ∧
    (NewProbe stubEngine "doWork" "start" [Kind.Int, Kind.String] ⟨stubOk, []⟩).2.st.argc = 2 ∧
    (Probe.Fire stubEngine ⟨"doWork", "start", some 2⟩ [.string "hello", .int 42]
      ⟨(NewProbe stubEngine "doWork" "start" [Kind.Int, Kind.String] ⟨stubOk, []⟩).2.st, []⟩).map
        (fun r => (r.1, r.2.log)) =
      some (none, [.read_probedef_argc 2, .read_probedef_probe 2,
        .usdt_fire_probe (some 3) 2 [Slot.cstring "hello", Slot.word 42, Slot.null]]) := by
  refine ⟨rfl, rfl, ?_⟩
  decide

/-! ## C6 -/

/-- C6, the code on a successful attach: for every provider (open or not) and
every probe, when `usdt_provider_add_probe` answers 0, `AddProbe` returns nil and
leaves `Probes` exactly as it was; the probe is not appended. -/
theorem AddProbe_leaves_Probes {σ : Type} (E : Engine σ) (p : Provider) (q : Probe)
    (w : World σ) (hret : (E.usdt_provider_add_probe p.cProvider q.cProbeDef w.st).1 = 0) :
    (Provider.AddProbe E p (some q) w).1.2 = none ∧
    (Provider.AddProbe E p (some q) w).1.1.Probes = p.Probes ∧
    (Provider.AddProbe E p (some q) w).1.1.Probes ≠ p.Probes ++ [q] := by
  have hp := AddProbe_provider E p (some q) w
  refine ⟨?_, by rw [hp], ?_⟩
  · simp [Provider.AddProbe, hret]
  · rw [hp]
    intro hc
    have := congrArg List.length hc
    simp at this

/-- C6 at a fresh provider: after a successful `AddProbe` the probe list is
still empty. -/
theorem AddProbe_leaves_Probes_witness :
    (Provider.AddProbe stubEngine ⟨"myapp", "core", [], some 1⟩
        (some ⟨"doWork", "start", some 2⟩) ⟨stubOk, []⟩).1.2 = none ∧
    (Provider.AddProbe stubEngine ⟨"myapp", "core", [], some 1⟩
        (some ⟨"doWork", "start", some 2⟩) ⟨stubOk, []⟩).1.1.Probes = [] ∧
    (Provider.AddProbe stubEngine ⟨"myapp", "core", [], some 1⟩
        (some ⟨"doWork", "start", some 2⟩) ⟨stubOk, []⟩).1.1.Probes ≠
      [] ++ [⟨"doWork", "start", some 2⟩] :=
  AddProbe_leaves_Probes stubEngine ⟨"myapp", "core", [], some 1⟩ ⟨"doWork", "start", some 2⟩
    ⟨stubOk, []⟩ (by decide)

/-! ## C7 -/

theorem error_of_open {σ : Type} (E : Engine σ) (p : Provider) (h : Ptr) (w : World σ)
    (hopen : p.cProvider = some h) :
    (Provider.error E p w).1 =
      if GoString (E.provider_error h w.st) = "" then none
      else some ("DTrace [" ++ p.Name ++ ":" ++ p.Module ++ "]: " ++
        GoString (E.provider_error h w.st)) := by
  simp only [Provider.error, hopen]
  split <;> rfl

/-- C7, as the code has it: a foreign failure is reported only when the engine
has recorded an error text.  For every open provider: `Enable` returns nil
when `usdt_provider_enable` answers 0; when it answers something else and the
foreign error string is not empty, `Enable` returns an error whose text is
`DTrace [name:module]: ` followed by that string; when it answers something
else and the foreign error string is empty or unset, `Enable` returns nil.
The same holds of `AddProbe` on a non-nil probe and
`usdt_provider_add_probe`. -/
theorem foreign_failure_reported_with_text {σ : Type} (E : Engine σ) (p : Provider) (h : Ptr)
    (w : World σ) (hopen : p.cProvider = some h) :
    ((E.usdt_provider_enable (some h) w.st).1 = 0 → (Provider.Enable E p w).1 = none) ∧
    ((E.usdt_provider_enable (some h) w.st).1 ≠ 0 →
      GoString (E.provider_error h (E.usdt_provider_enable (some h) w.st).2) ≠ "" →
      (Provider.Enable E p w).1 =
        some ("DTrace [" ++ p.Name ++ ":" ++ p.Module ++ "]: " ++
          GoString (E.provider_error h (E.usdt_provider_enable (some h) w.st).2))) ∧
    ((E.usdt_provider_enable (some h) w.st).1 ≠ 0 →
      GoString (E.provider_error h (E.usdt_provider_enable (some h) w.st).2) = "" →
      (Provider.Enable E p w).1 = none) ∧
    (∀ q : Probe,
      ((E.usdt_provider_add_probe (some h) q.cProbeDef w.st).1 = 0 →
        (Provider.AddProbe E p (some q) w).1.2 = none) ∧
      ((E.usdt_provider_add_probe (some h) q.cProbeDef w.st).1 ≠ 0 →
        GoString (E.provider_error h
          (E.usdt_provider_add_probe (some h) q.cProbeDef w.st).2) ≠ "" →
        (Provider.AddProbe E p (some q) w).1.2 =
          some ("DTrace [" ++ p.Name ++ ":" ++ p.Module ++ "]: " ++
            GoString (E.provider_error h
              (E.usdt_provider_add_probe (some h) q.cProbeDef w.st).2))) ∧
      ((E.usdt_provider_add_probe (some h) q.cProbeDef w.st).1 ≠ 0 →
        GoString (E.provider_error h
          (E.usdt_provider_add_probe (some h) q.cProbeDef w.st).2) = "" →
        (Provider.AddProbe E p (some q) w).1.2 = none)) := by
  refine ⟨?_, ?_, ?_, fun q => ⟨?_, ?_, ?_⟩⟩
  · intro h0
    simp [Provider.Enable, hopen, h0]
  · intro h0 hm
    simp only [Provider.Enable, hopen, h0, if_false]
    rw [error_of_open E p h _ hopen]
    simp [hm]
  · intro h0 hm
    simp only [Provider.Enable, hopen, h0, if_false]
    rw [error_of_open E p h _ hopen]
    simp [hm]
  · intro h0
    simp [Provider.AddProbe, hopen, h0]
  · intro h0 hm
    simp only [Provider.AddProbe, hopen, h0, if_false]
    rw [error_of_open E p h _ hopen]
    simp [hm]
  · intro h0 hm
    simp only [Provider.AddProbe, hopen, h0, if_false]
    rw [error_of_open E p h _ hopen]
    simp [hm]

/-- C7 on the stub engine: enable fails and the engine has recorded a text. -/
theorem foreign_failure_reported_with_text_witness :
    (Provider.Enable stubEngine ⟨"myapp", "core", [], some 1⟩
      ⟨{ stubFail with error := some "failed to load DOF" }, []⟩).1 =
      some ("DTrace [" ++ "myapp" ++ ":" ++ "core" ++ "]: " ++
        GoString (some "failed to load DOF")) :=
  (foreign_failure_reported_with_text stubEngine ⟨"myapp", "core", [], some 1⟩ 1
    ⟨{ stubFail with error := some "failed to load DOF" }, []⟩ rfl).2.1
    (by decide) (by decide)

/-- C7 fails as stated: on an open provider, with `usdt_provider_enable` and
`usdt_provider_add_probe` answering -1 and no foreign error text recorded,
`Enable` and `AddProbe` both return nil. -/
theorem foreign_failure_without_text_is_nil :
    (stubEngine.usdt_provider_enable (some 1) stubFail).1 ≠ 0 ∧
    (Provider.Enable stubEngine ⟨"myapp", "core", [], some 1⟩ ⟨stubFail, []⟩).1 = none ∧
    (stubEngine.usdt_provider_add_probe (some 1) (some 2) stubFail).1 ≠ 0 ∧
    (Provider.AddProbe stubEngine ⟨"myapp", "core", [], some 1⟩
      (some ⟨"doWork", "start", some 2⟩) ⟨stubFail, []⟩).1.2 = none := by
  refine ⟨by decide, ?_, by decide, ?_⟩ <;> decide

/-! ## C8 -/

/-- C8, as the code has it: closing a provider does nothing to its probes.  For
every probe with a foreign definition that was attached to a provider with
success, after `Close` of that provider: `Enabled` of the probe reads the
definition, calls `usdt_is_enabled` and returns true exactly when the call
answers 1; `Fire` of the probe returns, reads the arity from the definition,
returns nil exactly when the argument count equals that arity and every
argument is an `int` or a `string`, and then has called `usdt_fire_probe`
once; with a wrong argument count it returns the arity error.  No closed
error exists for a probe. -/
theorem Close_leaves_probes_live {σ : Type} (E : Engine σ) (p : Provider) (q : Probe) (d : Ptr)
    (w : World σ) (hd : q.cProbeDef = some d)
    (_hadd : (Provider.AddProbe E p (some q) w).1.2 = none) :
    let w2 := (Provider.Close E (Provider.AddProbe E p (some q) w).1.1
      (Provider.AddProbe E p (some q) w).2).2
    Probe.Enabled E q w2 =
      (decide ((E.usdt_is_enabled (E.probedef_probe d w2.st) w2.st).1 = 1),
        ⟨(E.usdt_is_enabled (E.probedef_probe d w2.st) w2.st).2,
          w2.log ++ [.read_probedef_probe d, .usdt_is_enabled (E.probedef_probe d w2.st)]⟩) ∧
    ∀ args : List GoValue, ∃ e w3, Probe.Fire E q args w2 = some (e, w3) ∧
      (∃ rest, w3.log = w2.log ++ ForeignCall.read_probedef_argc d :: rest) ∧
      (e = none ↔ (args.length = E.probedef_argc d w2.st ∧ ∀ t, GoValue.other t ∉ args)) ∧
      (e = none → fires w3.log = fires w2.log + 1) ∧
      (args.length ≠ E.probedef_argc d w2.st →
        e = some ("DTrace [" ++ q.Function ++ ":" ++ q.Name ++ "]: Expected " ++
          toString (E.probedef_argc d w2.st) ++ " arguments, got " ++ toString args.length)) := by
  intro w2
  refine ⟨by simp [Probe.Enabled, hd], fun args => ?_⟩
  by_cases hlen : args.length = E.probedef_argc d w2.st
  · by_cases hs : ∀ a ∈ args, supported a = true
    · refine ⟨none, _, Fire_of_ok E q d args w2 hd hlen hs, ⟨_, rfl⟩, ?_, ?_, ?_⟩
      · exact ⟨fun _ => ⟨hlen, (all_supported_iff args).mp hs⟩, fun _ => rfl⟩
      · intro _; exact fires_append_fire _ _ _ _ _
      · intro hne; exact absurd hlen hne
    · have hs2 : ∃ a ∈ args, supported a = false := by
        by_contra hc
        apply hs
        intro a ha
        cases hsa : supported a with
        | true => rfl
        | false => exact absurd ⟨a, ha, hsa⟩ hc
      obtain ⟨t, ht, hf⟩ := Fire_of_unsupported E q d args w2 hd hlen hs2
      refine ⟨_, _, hf, ⟨[], rfl⟩, ?_, ?_, ?_⟩
      · constructor
        · intro h; simp at h
        · rintro ⟨_, hno⟩; exact absurd ht (hno t)
      · intro h; simp at h
      · intro hne; exact absurd hlen hne
  · refine ⟨_, _, Fire_of_arity_ne E q d args w2 hd hlen, ⟨[], rfl⟩, ?_, ?_, ?_⟩
    · constructor
      · intro h; simp at h
      · rintro ⟨hl, _⟩; exact absurd hl hlen
    · intro h; simp at h
    · intro _; rfl

/-- C8 on the stub engine: attach, close, then query the probe. -/
theorem Close_leaves_probes_live_witness :
    (Probe.Enabled stubEngine ⟨"doWork", "start", some 2⟩
      (Provider.Close stubEngine
        (Provider.AddProbe stubEngine ⟨"myapp", "core", [], some 1⟩
          (some ⟨"doWork", "start", some 2⟩) ⟨{ stubOk with argc := 2 }, []⟩).1.1
        (Provider.AddProbe stubEngine ⟨"myapp", "core", [], some 1⟩
          (some ⟨"doWork", "start", some 2⟩) ⟨{ stubOk with argc := 2 }, []⟩).2).2).1 =
      decide ((1 : Int) = 1) :=
  congrArg Prod.fst
    (Close_leaves_probes_live stubEngine ⟨"myapp", "core", [], some 1⟩
      ⟨"doWork", "start", some 2⟩ 2 ⟨{ stubOk with argc := 2 }, []⟩ rfl (by decide)).1

/-- C8 fails as stated: a probe attached with success to a provider that is then
closed still answers `Enabled()` with true, through `usdt_is_enabled`, and
`Fire(42, "hello")` on it returns nil and calls `usdt_fire_probe`. -/
theorem probe_live_after_Close :
    (Provider.AddProbe stubEngine ⟨"myapp", "core", [], some 1⟩
      (some ⟨"doWork", "start", some 2⟩) ⟨{ stubOk with argc := 2 }, []⟩).1.2 = none ∧
    (Provider.Close stubEngine
      (Provider.AddProbe stubEngine ⟨"myapp", "core", [], some 1⟩
        (some ⟨"doWork", "start", some 2⟩) ⟨{ stubOk with argc := 2 }, []⟩).1.1
      (Provider.AddProbe stubEngine ⟨"myapp", "core", [], some 1⟩
        (some ⟨"doWork", "start", some 2⟩) ⟨{ stubOk with argc := 2 }, []⟩).2).1.cProvider = none ∧
    (Probe.Enabled stubEngine ⟨"doWork", "start", some 2⟩
      (Provider.Close stubEngine
        (Provider.AddProbe stubEngine ⟨"myapp", "core", [], some 1⟩
          (some ⟨"doWork", "start", some 2⟩) ⟨{ stubOk with argc := 2 }, []⟩).1.1
        (Provider.AddProbe stubEngine ⟨"myapp", "core", [], some 1⟩
          (some ⟨"doWork", "start", some 2⟩) ⟨{ stubOk with argc := 2 }, []⟩).2).2).1 = true ∧
    (Probe.Enabled stubEngine ⟨"doWork", "start", some 2⟩
      (Provider.Close stubEngine
        (Provider.AddProbe stubEngine ⟨"myapp", "core", [], some 1⟩
          (some ⟨"doWork", "start", some 2⟩) ⟨{ stubOk with argc := 2 }, []⟩).1.1
        (Provider.AddProbe stubEngine ⟨"myapp", "core", [], some 1⟩
          (some ⟨"doWork", "start", some 2⟩) ⟨{ stubOk with argc := 2 }, []⟩).2).2).2.log =
      [.usdt_provider_add_probe (some 1) (some 2), .usdt_provider_free (some 1),
        .read_probedef_probe 2, .usdt_is_enabled (some 3)] ∧
    (Probe.Fire stubEngine ⟨"doWork", "start", some 2⟩ [.int 42, .string "hello"]
      (Provider.Close stubEngine
        (Provider.AddProbe stubEngine ⟨"myapp", "core", [], some 1⟩
          (some ⟨"doWork", "start", some 2⟩) ⟨{ stubOk with argc := 2 }, []⟩).1.1
        (Provider.AddProbe stubEngine ⟨"myapp", "core", [], some 1⟩
          (some ⟨"doWork", "start", some 2⟩) ⟨{ stubOk with argc := 2 }, []⟩).2).2).map
        (fun r => (r.1, r.2.log)) =
      some (none, [.usdt_provider_add_probe (some 1) (some 2), .usdt_provider_free (some 1),
        .read_probedef_argc 2, .read_probedef_probe 2,
        .usdt_fire_probe (some 3) 2 [Slot.word 42, Slot.cstring "hello", Slot.null]]) := by
  refine ⟨?_, ?_, ?_, ?_, ?_⟩ <;> decide

/-! ## C9 -/

theorem kindSupported_iff (k : Kind) : kindSupported k = true ↔ (k = Kind.Int ∨ k = Kind.String) := by
  cases k <;> simp [kindSupported]

theorem encodeKinds_cons_unsupported (k : Kind) (rest : List Kind) (i : Nat)
    (arr : List (Option String)) (h : kindSupported k = false) :
    encodeKinds (k :: rest) i arr = .error "Probe arguments may only be of kind Int or String" := by
  cases k <;> first | rfl | simp [kindSupported] at h

theorem encodeKinds_ok (kinds : List Kind) (pre suf : List (Option String))
    (hs : ∀ k ∈ kinds, kindSupported k = true) (hl : kinds.length ≤ suf.length) :
    encodeKinds kinds pre.length (pre ++ suf) =
      .ok (pre ++ kinds.map typeNameOf ++ suf.drop kinds.length) := by
  induction kinds generalizing pre suf with
  | nil => simp [encodeKinds]
  | cons k rest ih =>
    cases suf with
    | nil => simp at hl
    | cons x suf =>
      have hrest : ∀ b ∈ rest, kindSupported b = true :=
        fun b hb => hs b (List.mem_cons_of_mem _ hb)
      have hl2 : rest.length ≤ suf.length := by simpa using hl
      have hset : ∀ s : Option String,
          (pre ++ x :: suf).set pre.length s = (pre ++ [s]) ++ suf := by
        intro s
        rw [List.set_append_right _ _ (Nat.le_refl _)]
        simp
      have hlen : ∀ s : Option String, pre.length + 1 = (pre ++ [s]).length := by
        intro s; simp
      rcases (kindSupported_iff k).mp (hs k (List.mem_cons_self _ _)) with hk | hk
      · subst hk
        simp only [encodeKinds]
        rw [hset, hlen (some "int"), ih _ _ hrest hl2]
        simp [typeNameOf]
      · subst hk
        simp only [encodeKinds]
        rw [hset, hlen (some "char *"), ih _ _ hrest hl2]
        simp [typeNameOf]

theorem encodeKinds_error (kinds : List Kind) (i : Nat) (arr : List (Option String))
    (hs : ∃ k ∈ kinds, kindSupported k = false) :
    encodeKinds kinds i arr = .error "Probe arguments may only be of kind Int or String" := by
  induction kinds generalizing i arr with
  | nil => obtain ⟨a, ha, _⟩ := hs; exact absurd ha (List.not_mem_nil _)
  | cons k rest ih =>
    cases hk : kindSupported k with
    | false => exact encodeKinds_cons_unsupported k rest i arr hk
    | true =>
      have hs2 : ∃ a ∈ rest, kindSupported a = false := by
        obtain ⟨a, ha, hf⟩ := hs
        rcases List.mem_cons.mp ha with e | e
        · subst e; rw [hk] at hf; exact absurd hf (by decide)
        · exact ⟨a, e, hf⟩
      rcases (kindSupported_iff k).mp hk with e | e
      · subst e
        simp only [encodeKinds]
        exact ih _ _ hs2
      · subst e
        simp only [encodeKinds]
        exact ih _ _ hs2

theorem typeNameOf_supported (kinds : List Kind) (hs : ∀ k ∈ kinds, k = Kind.Int ∨ k = Kind.String) :
    kinds.map typeNameOf =
      kinds.map (fun k => if k = Kind.Int then some "int" else some "char *") := by
  apply List.map_congr_left
  intro k hk
  rcases hs k hk with e | e <;> subst e <;> rfl

/-- C9: `NewProbe` validates, then encodes.  For every list of kinds, the empty
one included: if some kind is neither `Int` nor `String`, `NewProbe` returns
no probe and the unsupported-kind error, and the world is unchanged, so
`usdt_create_probe` is not called; otherwise `NewProbe` makes exactly one
foreign call, `usdt_create_probe` with the number of kinds as arity and the
vector of type names, `int` for `Int` and `char *` for `String` in the
declared order (followed by the unused null of the slice), and it returns an
error exactly when that call answers null, a probe otherwise. -/
theorem NewProbe_validates_then_encodes {σ : Type} (E : Engine σ) (function name : String)
    (kinds : List Kind) (w : World σ) :
    ((∃ k ∈ kinds, k ≠ Kind.Int ∧ k ≠ Kind.String) →
      NewProbe E function name kinds w =
        ((none, some "Probe arguments may only be of kind Int or String"), w)) ∧
    ((∀ k ∈ kinds, k = Kind.Int ∨ k = Kind.String) →
      (NewProbe E function name kinds w).2.log =
        w.log ++ [.usdt_create_probe function name kinds.length
          (kinds.map (fun k => if k = Kind.Int then some "int" else some "char *") ++ [none])] ∧
      ((NewProbe E function name kinds w).1.2 ≠ none ↔
        (E.usdt_create_probe function name kinds.length
          (kinds.map (fun k => if k = Kind.Int then some "int" else some "char *") ++ [none])
          w.st).1 = none) ∧
      ((NewProbe E function name kinds w).1.1 = none ↔
        (NewProbe E function name kinds w).1.2 ≠ none)) := by
  constructor
  · rintro ⟨k, hk, h1, h2⟩
    have hu : ∃ k ∈ kinds, kindSupported k = false := by
      refine ⟨k, hk, ?_⟩
      cases hks : kindSupported k with
      | false => rfl
      | true =>
        rcases (kindSupported_iff k).mp hks with e | e
        · exact absurd e h1
        · exact absurd e h2
    simp [NewProbe, encodeKinds_error kinds 0 _ hu]
  · intro hs
    have hsup : ∀ k ∈ kinds, kindSupported k = true :=
      fun k hk => (kindSupported_iff k).mpr (hs k hk)
    have hok := encodeKinds_ok kinds [] (List.replicate (kinds.length + 1) none) hsup (by simp)
    have henc : encodeKinds kinds 0 (List.replicate (kinds.length + 1) none) =
        .ok (kinds.map (fun k => if k = Kind.Int then some "int" else some "char *") ++
          [none]) := by
      rw [← typeNameOf_supported kinds hs]
      simpa using hok
    unfold NewProbe
    rw [henc]
    simp only [List.length_append, List.length_map, List.length_singleton,
      Nat.add_sub_cancel]
    cases hr : (E.usdt_create_probe function name kinds.length
        (kinds.map (fun k => if k = Kind.Int then some "int" else some "char *") ++ [none])
        w.st).1 with
    | none => simp
    | some c => simp

/-- C9 on the stub engine with the kinds `[Int, String]`. -/
theorem NewProbe_validates_then_encodes_witness :
    (NewProbe stubEngine "doWork" "start" [Kind.Int, Kind.String] ⟨stubOk, []⟩).2.log =
      [] ++ [.usdt_create_probe "doWork" "start" [Kind.Int, Kind.String].length
        ([Kind.Int, Kind.String].map
          (fun k => if k = Kind.Int then some "int" else some "char *") ++ [none])] ∧
    NewProbe stubEngine "doWork" "start" [Kind.Int, Kind.Float64] ⟨stubOk, []⟩ =
      ((none, some "Probe arguments may only be of kind Int or String"), ⟨stubOk, []⟩) :=
  ⟨((NewProbe_validates_then_encodes stubEngine "doWork" "start" [Kind.Int, Kind.String]
      ⟨stubOk, []⟩).2 (by decide)).1,
   (NewProbe_validates_then_encodes stubEngine "doWork" "start" [Kind.Int, Kind.Float64]
      ⟨stubOk, []⟩).1 ⟨Kind.Float64, by decide, by decide, by decide⟩⟩

/-! ## C10 -/

theorem C_int_of_int32 (v : Int) (h1 : -2 ^ 31 ≤ v) (h2 : v < 2 ^ 31) : C_int v = v := by
  unfold C_int
  omega

theorem uintptr_C_int_eq_iff (v v' : Int) :
    uintptr (C_int v) = uintptr (C_int v') ↔ v % 2 ^ 32 = v' % 2 ^ 32 := by
  unfold uintptr C_int
  omega

theorem Fire_nil_inv {σ : Type} (E : Engine σ) (p : Probe) (d : Ptr) (args : List GoValue)
    (w w' : World σ) (hd : p.cProbeDef = some d)
    (hfire : Probe.Fire E p args w = some (none, w')) :
    args.length = E.probedef_argc d w.st ∧ ∀ a ∈ args, supported a = true := by
  by_cases hlen : args.length = E.probedef_argc d w.st
  · refine ⟨hlen, ?_⟩
    by_contra hs
    have hs2 : ∃ a ∈ args, supported a = false := by
      by_contra hc
      apply hs
      intro a ha
      cases hsa : supported a with
      | true => rfl
      | false => exact absurd ⟨a, ha, hsa⟩ hc
    obtain ⟨t, _, hf⟩ := Fire_of_unsupported E p d args w hd hlen hs2
    rw [hf] at hfire
    simp at hfire
  · rw [Fire_of_arity_ne E p d args w hd hlen] at hfire
    simp at hfire

/-- C10, as the code has it: an `int` argument goes through the 32-bit C `int`.
For every `Fire` that returns nil, `usdt_fire_probe` is handed a vector with
one slot per argument in argument order, followed by one unused null; the
slot of an `int` argument `v` holds the low 32 bits of `v`, read as signed
and sign-extended to the 64-bit word; when `v` lies in the range of a 32-bit
signed integer this is `v mod 2^64`; the slot of a `string` argument points
to its C copy; two `int` arguments give the same slot value exactly when they
agree modulo `2^32`. -/
theorem Fire_int_slot {σ : Type} (E : Engine σ) (p : Probe) (d : Ptr) (args : List GoValue)
    (w w' : World σ) (hd : p.cProbeDef = some d)
    (hfire : Probe.Fire E p args w = some (none, w')) :
    ∃ cProbe argv,
      w'.log = w.log ++ [.read_probedef_argc d, .read_probedef_probe d,
        .usdt_fire_probe cProbe args.length argv] ∧
      argv.length = args.length + 1 ∧
      argv[args.length]? = some Slot.null ∧
      (∀ (i : Nat) (v : Int), args[i]? = some (GoValue.int v) →
        argv[i]? = some (Slot.word (uintptr (C_int v))) ∧
        (-2 ^ 31 ≤ v → v < 2 ^ 31 → argv[i]? = some (Slot.word (v % 2 ^ 64).toNat))) ∧
      (∀ (i : Nat) (s : String), args[i]? = some (GoValue.string s) → argv[i]? = some (Slot.cstring s)) ∧
      (∀ v v' : Int, uintptr (C_int v) = uintptr (C_int v') ↔ v % 2 ^ 32 = v' % 2 ^ 32) := by
  obtain ⟨hlen, hs⟩ := Fire_nil_inv E p d args w w' hd hfire
  rw [Fire_of_ok E p d args w hd hlen hs] at hfire
  have hw : w' = _ := (congrArg Prod.snd (Option.some.inj hfire)).symm
  have hget : ∀ (i : Nat) (a : GoValue), args[i]? = some a → (args.map slotOf ++ [Slot.null])[i]? = some (slotOf a) := by
    intro i a ha
    have hi : i < args.length := by
      rcases Nat.lt_or_ge i args.length with h | h
      · exact h
      · rw [List.getElem?_eq_none h] at ha; simp at ha
    rw [List.getElem?_append_left (by simpa using hi)]
    simp [ha]
  refine ⟨E.probedef_probe d w.st, args.map slotOf ++ [Slot.null], ?_, by simp, ?_, ?_, ?_,
    uintptr_C_int_eq_iff⟩
  · rw [hw]
  · rw [List.getElem?_append_right (by simp)]
    simp
  · intro i v hv
    have h1 := hget i _ hv
    refine ⟨h1, fun h2 h3 => ?_⟩
    rw [h1, slotOf, C_int_of_int32 v h2 h3, uintptr]
  · intro i s hv
    exact hget i _ hv

/-- C10 on the stub engine: `Fire(42, "hello")` on a probe of arity 2. -/
theorem Fire_int_slot_witness :
    ∃ cProbe argv,
      ([] ++ [ForeignCall.read_probedef_argc 2, ForeignCall.read_probedef_probe 2,
        ForeignCall.usdt_fire_probe (some 3) 2
          [Slot.word 42, Slot.cstring "hello", Slot.null]]) =
        [] ++ [.read_probedef_argc 2, .read_probedef_probe 2,
          .usdt_fire_probe cProbe [GoValue.int 42, GoValue.string "hello"].length argv] ∧
      argv.length = [GoValue.int 42, GoValue.string "hello"].length + 1 ∧
      argv[[GoValue.int 42, GoValue.string "hello"].length]? = some Slot.null ∧
      (∀ (i : Nat) (v : Int), [GoValue.int 42, GoValue.string "hello"][i]? = some (GoValue.int v) →
        argv[i]? = some (Slot.word (uintptr (C_int v))) ∧
        (-2 ^ 31 ≤ v → v < 2 ^ 31 → argv[i]? = some (Slot.word (v % 2 ^ 64).toNat))) ∧
      (∀ (i : Nat) (s : String), [GoValue.int 42, GoValue.string "hello"][i]? = some (GoValue.string s) →
        argv[i]? = some (Slot.cstring s)) ∧
      (∀ v v' : Int, uintptr (C_int v) = uintptr (C_int v') ↔ v % 2 ^ 32 = v' % 2 ^ 32) :=
  Fire_int_slot stubEngine ⟨"doWork", "start", some 2⟩ 2 [.int 42, .string "hello"]
    ⟨{ stubOk with argc := 2 }, []⟩
    ⟨{ stubOk with argc := 2 }, [] ++ [ForeignCall.read_probedef_argc 2,
      ForeignCall.read_probedef_probe 2,
      ForeignCall.usdt_fire_probe (some 3) 2 [Slot.word 42, Slot.cstring "hello", Slot.null]]⟩
    rfl (by rfl)

/-- C10 fails as stated: `Fire(4294967296)` and `Fire(0)` hand the same slot
value, 0, to `usdt_fire_probe`, although `4294967296 mod 2^64` is not 0; and
`Fire(2147483648)` hands over `2^64 - 2^31`, not `2147483648`. -/
theorem Fire_int_truncated_to_32_bits :
    (Probe.Fire stubEngine ⟨"doWork", "start", some 2⟩ [.int 4294967296]
      ⟨{ stubOk with argc := 1 }, []⟩).map (fun r => (r.1, r.2.log)) =
      some (none, [.read_probedef_argc 2, .read_probedef_probe 2,
        .usdt_fire_probe (some 3) 1 [Slot.word 0, Slot.null]]) ∧
    (Probe.Fire stubEngine ⟨"doWork", "start", some 2⟩ [.int 0]
      ⟨{ stubOk with argc := 1 }, []⟩).map (fun r => (r.1, r.2.log)) =
      some (none, [.read_probedef_argc 2, .read_probedef_probe 2,
        .usdt_fire_probe (some 3) 1 [Slot.word 0, Slot.null]]) ∧
    ((4294967296 : Int) % 2 ^ 64).toNat ≠ 0 ∧
    (Probe.Fire stubEngine ⟨"doWork", "start", some 2⟩ [.int 2147483648]
      ⟨{ stubOk with argc := 1 }, []⟩).map (fun r => (r.1, r.2.log)) =
      some (none, [.read_probedef_argc 2, .read_probedef_probe 2,
        .usdt_fire_probe (some 3) 1 [Slot.word 18446744071562067968, Slot.null]]) := by
  refine ⟨?_, ?_, ?_, ?_⟩ <;> decide

end Usdt
